import Mathlib

/-!
Shallow embedding of the Socket.io chat server (`src/server/server.js`).

State kept by the server process (`users`, `messages`, `typingUsers` and the
socket.io room membership) is modelled as explicit assoc lists inside a
`ServerState` record; each socket event handler becomes a pure function from
a state (plus the event payload) to a new state together with the list of
outbound emissions it performs.  `Date.now()` is modelled by an explicit
`now : Nat` argument: two events handled in the same millisecond receive the
same `now`.  A JavaScript `TypeError` thrown inside a handler (reading
`.push` of `undefined`) is modelled by the handler returning `none`.
-/

namespace SocketChat

/-- The JS object stored as `users[socket.id] = { username, id: socket.id, currentRoom }` (server.js:46). -/
structure User where
  username : String
  id : String
  currentRoom : String
deriving DecidableEq, Repr

/-- The JS object `typingUsers[socket.id] = { username, room }` (server.js:91). -/
structure TypingEntry where
  username : String
  room : String
deriving DecidableEq, Repr

/-- A message object as built by the `send_message`, `send_file` and
`private_message` handlers (server.js:57-66, 107-115, 144-154).  Fields a
given handler does not set are modelled by their JS-`undefined` defaults
(`none`, `[]`, `false`); `reactions` is the JS object mapping reaction symbol
to count, as an assoc list; `toSid` models the JS field named `to`. -/
structure Msg where
  id : Nat
  sender : String
  senderId : String
  message : Option String := none
  file : Option String := none
  fileName : Option String := none
  fileType : Option String := none
  timestamp : Nat := 0
  room : Option String := none
  reactions : List (String × Nat) := []
  readBy : List String := []
  isPrivate : Bool := false
  isFile : Bool := false
  toSid : Option String := none
deriving DecidableEq, Repr

/-- Payload of a `send_message` event: `{ message, room }` as produced by the
client (`socket.js`). -/
structure MessageData where
  message : String
  room : Option String
deriving DecidableEq, Repr

/-- Payload of a `send_file` event: `{ room, file, fileName, fileType }`. -/
structure FileData where
  file : String
  fileName : String
  fileType : String
  room : Option String
deriving DecidableEq, Repr

/-- Payload of a `typing` event: `{ room, isTyping }`. -/
structure TypingData where
  isTyping : Bool
  room : Option String
deriving DecidableEq, Repr

/-- The `{ success, messageId }` object passed to an acknowledgment callback
(server.js:77, 119). -/
structure AckPayload where
  success : Bool
  messageId : Nat
deriving DecidableEq, Repr

/-- The `{ success, messages, hasMore }` object passed to the `load_messages`
callback (server.js:213-217). -/
structure LoadResult where
  success : Bool
  messages : List Msg
  hasMore : Bool
deriving DecidableEq, Repr

/-- Events emitted by the handlers under the claims' scope. -/
inductive Event where
  | receive_message (m : Msg)
  | receive_file (m : Msg)
  | typing_users (users : List String) (room : String)
  | private_message (m : Msg)
  | reaction_added (messageId : Nat) (reaction : String) (count : Nat)
  | message_read (messageId : Nat) (userId : String)
deriving DecidableEq, Repr

/-- One outbound emission performed by a handler:
`socket.to(room).emit(...)` (every member of `room` except the emitting
socket), `socket.emit(...)` (the emitting socket only), `io.emit(...)`
(everyone), or an acknowledgment callback invocation. -/
inductive Emit where
  | toRoom (senderSid room : String) (e : Event)
  | toSelf (sid : String) (e : Event)
  | broadcast (e : Event)
  | ack (sid : String) (payload : AckPayload)
deriving DecidableEq, Repr

/-- The server process state: the `users`, `messages` and `typingUsers`
globals (server.js:30-32) plus the socket.io room membership relation
(`(sid, room)` pairs; socket.io also places every socket in a room named by
its own id, which is how `socket.to(recipientSid)` reaches a single
recipient). -/
structure ServerState where
  users : List (String × User)
  messages : List (String × List Msg)
  typingUsers : List (String × TypingEntry)
  membership : List (String × String)
deriving DecidableEq, Repr

/-- The fixed room list `const rooms = ['general', 'random', 'help']` (server.js:33). -/
def rooms : List String := ["general", "random", "help"]

/-- The initialization `rooms.forEach(room => { messages[room] = [] })` (server.js:36-38). -/
def initLogs : List (String × List Msg) := rooms.map (fun r => (r, []))

/-- The state right after process start: no users, empty logs. -/
def initState : ServerState :=
  { users := [], messages := initLogs, typingUsers := [], membership := [] }

/-- Room fallback `messageData.room || 'general'`: JS `||` falls back on any falsy value,
so both an absent room and the empty string select `'general'`. -/
def resolveRoom : Option String → String
  | none => "general"
  | some r => if r = "" then "general" else r

/-- Lookup in the `users` object (first binding of the key wins; keys are
unique in a JS object). -/
def lookupUser : List (String × User) → String → Option User
  | [], _ => none
  | (k, u) :: rest, sid => if k = sid then some u else lookupUser rest sid

/-- Sender resolution `users[socket.id]?.username || 'Anonymous'` (server.js:60, 109, 146):
an absent session, or a falsy (empty) username, yields `'Anonymous'`. -/
def resolveName (users : List (String × User)) (sid : String) : String :=
  match lookupUser users sid with
  | some u => if u.username = "" then "Anonymous" else u.username
  | none => "Anonymous"

/-- Read `messages[room]`: `none` models JS `undefined` for a key that was
never initialized (any room outside the configured three). -/
def lookupLog : List (String × List Msg) → String → Option (List Msg)
  | [], _ => none
  | (k, l) :: rest, room => if k = room then some l else lookupLog rest room

/-- In-place replacement of the array `messages[room]` (the key is present
whenever this is reached, since reading it did not yield `undefined`). -/
def setLog : List (String × List Msg) → String → List Msg → List (String × List Msg)
  | [], _, _ => []
  | (k, l) :: rest, room, newLog =>
    if k = room then (k, newLog) :: rest else (k, l) :: setLog rest room newLog

/-- Bounded append `messages[room].push(message); if (messages[room].length > 100)
messages[room].shift()` (server.js:68-73 and 156-160): append at the tail,
then drop a single element from the head if the length exceeded 100. -/
def pushBounded (log : List Msg) (m : Msg) : List Msg :=
  let pushed := log ++ [m]
  if pushed.length > 100 then pushed.drop 1 else pushed

/-- The message object built by the `send_message` handler
(server.js:57-66); the spread of `messageData` contributes the `message`
body and is otherwise overridden. -/
def mkRoomMessage (users : List (String × User)) (sid : String)
    (data : MessageData) (now : Nat) : Msg :=
  { id := now
    sender := resolveName users sid
    senderId := sid
    message := some data.message
    timestamp := now
    room := some (resolveRoom data.room)
    reactions := []
    readBy := [] }

/-- The `send_message` handler (server.js:54-82).  `hasCb` models whether the
client supplied an acknowledgment callback.  Returns `none` when
`messages[room]` is `undefined` (unknown room): `messages[room].push` then
throws a `TypeError` before any callback or emission runs. -/
def send_message (st : ServerState) (sid : String) (data : MessageData)
    (hasCb : Bool) (now : Nat) : Option (ServerState × List Emit) :=
  let room := resolveRoom data.room
  let m := mkRoomMessage st.users sid data now
  match lookupLog st.messages room with
  | none => none
  | some log =>
    some ({ st with messages := setLog st.messages room (pushBounded log m) },
      (if hasCb then [Emit.ack sid { success := true, messageId := now }] else [])
        ++ [Emit.toRoom sid room (.receive_message m)])

/-- Upsert of `typingUsers[socket.id]` (server.js:91). -/
def setTypingEntry : List (String × TypingEntry) → String → TypingEntry →
    List (String × TypingEntry)
  | [], sid, e => [(sid, e)]
  | (k, v) :: rest, sid, e =>
    if k = sid then (k, e) :: rest else (k, v) :: setTypingEntry rest sid e

/-- Key removal `delete typingUsers[socket.id]` (server.js:93). -/
def removeTyping : List (String × TypingEntry) → String → List (String × TypingEntry)
  | [], _ => []
  | (k, v) :: rest, sid => if k = sid then rest else (k, v) :: removeTyping rest sid

/-- The `typing` handler (server.js:85-102).  For a session that is not in
`users`, the guard `if (users[socket.id])` makes the whole handler a no-op. -/
def typing (st : ServerState) (sid : String) (data : TypingData) :
    ServerState × List Emit :=
  match lookupUser st.users sid with
  | none => (st, [])
  | some u =>
    let room := resolveRoom data.room
    let tu :=
      if data.isTyping then setTypingEntry st.typingUsers sid ⟨u.username, room⟩
      else removeTyping st.typingUsers sid
    let names := ((tu.map Prod.snd).filter (fun e => e.room == room)).map TypingEntry.username
    ({ st with typingUsers := tu }, [Emit.toRoom sid room (.typing_users names room)])

/-- The message object built by the `private_message` handler
(server.js:107-115). -/
def mkPrivateMessage (users : List (String × User)) (sid recipient body : String)
    (now : Nat) : Msg :=
  { id := now
    sender := resolveName users sid
    senderId := sid
    message := some body
    timestamp := now
    isPrivate := true
    toSid := some recipient }

/-- The `private_message` handler (server.js:105-124): no server state is
touched; the callback (when present) is invoked unconditionally, then the
message is emitted via `socket.to(to)`. -/
def private_message (st : ServerState) (sid recipient body : String)
    (hasCb : Bool) (now : Nat) : ServerState × List Emit :=
  let m := mkPrivateMessage st.users sid recipient body now
  (st,
    (if hasCb then [Emit.ack sid { success := true, messageId := now }] else [])
      ++ [Emit.toRoom sid recipient (.private_message m)])

/-- The message object built by the `send_file` handler (server.js:144-154);
note it carries neither a `reactions` nor a `readBy` field (JS `undefined`,
modelled by the defaults) and is tagged `isFile`. -/
def mkFileMessage (users : List (String × User)) (sid : String)
    (fd : FileData) (now : Nat) : Msg :=
  { id := now
    sender := resolveName users sid
    senderId := sid
    file := some fd.file
    fileName := some fd.fileName
    fileType := some fd.fileType
    timestamp := now
    room := some (resolveRoom fd.room)
    isFile := true }

/-- The `send_file` handler (server.js:142-164): no acknowledgment callback
exists for this event; the fan-out is `socket.to(room)` followed by
`socket.emit`, so the sender is included.  Returns `none` on an unknown room
(the `push` on `undefined` throws). -/
def send_file (st : ServerState) (sid : String) (fd : FileData) (now : Nat) :
    Option (ServerState × List Emit) :=
  let room := resolveRoom fd.room
  let m := mkFileMessage st.users sid fd now
  match lookupLog st.messages room with
  | none => none
  | some log =>
    some ({ st with messages := setLog st.messages room (pushBounded log m) },
      [Emit.toRoom sid room (.receive_file m), Emit.toSelf sid (.receive_file m)])

/-- Reading `message.reactions[reaction]` with the JS default: an absent key
(or, after the falsy guard, the value `0`) counts as `0`. -/
def lookupCount : List (String × Nat) → String → Nat
  | [], _ => 0
  | (k, c) :: rest, s => if k = s then c else lookupCount rest s

/-- The increment `if (!message.reactions[reaction]) message.reactions[reaction] = 0;
message.reactions[reaction]++` (server.js:177-178). -/
def bumpReaction : List (String × Nat) → String → List (String × Nat)
  | [], s => [(s, 1)]
  | (k, c) :: rest, s =>
    if k = s then (k, c + 1) :: rest else (k, c) :: bumpReaction rest s

/-- The search `messages[room].findIndex(msg => msg.id === messageId)` followed by the
in-place reaction update of the found message (server.js:173-178), on a
single room's array: `none` when no message matches; otherwise the updated
array together with the updated count that is broadcast. -/
def addReactionLog (mid : Nat) (symbol : String) : List Msg → Option (List Msg × Nat)
  | [] => none
  | m :: rest =>
    if m.id = mid then
      some (({ m with reactions := bumpReaction m.reactions symbol }) :: rest,
        lookupCount m.reactions symbol + 1)
    else
      match addReactionLog mid symbol rest with
      | some (rest', c) => some (m :: rest', c)
      | none => none

/-- The `for (const room in messages)` search of the `add_reaction` handler
(server.js:172-183): rooms are visited in key-insertion order and the loop
breaks at the first room whose array contains the id. -/
def addReactionRooms (mid : Nat) (symbol : String) :
    List (String × List Msg) → List (String × List Msg) × List Emit
  | [] => ([], [])
  | (r, log) :: rest =>
    match addReactionLog mid symbol log with
    | some (log', c) =>
      ((r, log') :: rest, [Emit.broadcast (.reaction_added mid symbol c)])
    | none =>
      let res := addReactionRooms mid symbol rest
      ((r, log) :: res.1, res.2)

/-- The `add_reaction` handler (server.js:167-184): a session absent from
`users` returns immediately; otherwise the first message with the given id
(if any) gets `reactions[reaction]` incremented and the new count is
broadcast process-wide. -/
def add_reaction (st : ServerState) (sid : String) (mid : Nat) (symbol : String) :
    ServerState × List Emit :=
  match lookupUser st.users sid with
  | none => (st, [])
  | some _ =>
    let res := addReactionRooms mid symbol st.messages
    ({ st with messages := res.1 }, res.2)

/-- The per-room part of the `mark_read` handler (server.js:193-202):
`findIndex` on the id, then push the username onto `readBy` only if absent;
the `Bool` is whether the read state changed (and hence whether a
`message_read` broadcast happens). -/
def markReadLog (u : String) (mid : Nat) : List Msg → Option (List Msg × Bool)
  | [] => none
  | m :: rest =>
    if m.id = mid then
      if u ∈ m.readBy then some (m :: rest, false)
      else some (({ m with readBy := m.readBy ++ [u] }) :: rest, true)
    else
      match markReadLog u mid rest with
      | some (rest', b) => some (m :: rest', b)
      | none => none

/-- The `for (const room in messages)` search of the `mark_read` handler
(server.js:192-203). -/
def markReadRooms (u : String) (mid : Nat) :
    List (String × List Msg) → List (String × List Msg) × List Emit
  | [] => ([], [])
  | (r, log) :: rest =>
    match markReadLog u mid log with
    | some (log', true) => ((r, log') :: rest, [Emit.broadcast (.message_read mid u)])
    | some (log', false) => ((r, log') :: rest, [])
    | none =>
      let res := markReadRooms u mid rest
      ((r, log) :: res.1, res.2)

/-- The `mark_read` handler (server.js:187-204). -/
def mark_read (st : ServerState) (sid : String) (mid : Nat) :
    ServerState × List Emit :=
  match lookupUser st.users sid with
  | none => (st, [])
  | some u =>
    let res := markReadRooms u.username mid st.messages
    ({ st with messages := res.1 }, res.2)

/-- ECMAScript `Array.prototype.slice(start, end)`: a negative index counts
from the end of the array and both indices are clamped to `[0, length]`. -/
def jsSlice {α : Type} (l : List α) (s e : Int) : List α :=
  let n : Int := l.length
  let s' := if s < 0 then max (n + s) 0 else min s n
  let e' := if e < 0 then max (n + e) 0 else min e n
  (l.take e'.toNat).drop s'.toNat

/-- The windowing computation of the `load_messages` handler
(server.js:209-216) on one room's array:
`startIndex = Math.max(0, length - limit - offset)`,
`endIndex = length - offset`, `slice(startIndex, endIndex)`,
`hasMore = startIndex > 0`. -/
def sliceWindow (log : List Msg) (limit offset : Nat) : List Msg × Bool :=
  let startIndex : Nat := ((log.length : Int) - limit - offset).toNat
  let endIndex : Int := (log.length : Int) - offset
  (jsSlice log (startIndex : Int) endIndex, decide (0 < startIndex))

/-- The `load_messages` handler (server.js:207-218): `messages[room] || []`
falls back to the empty array for an unknown room; the result is the payload
of the acknowledgment callback.  No state is modified. -/
def load_messages (st : ServerState) (room : String) (limit offset : Nat) :
    LoadResult :=
  let log := (lookupLog st.messages room).getD []
  { success := true
    messages := (sliceWindow log limit offset).1
    hasMore := (sliceWindow log limit offset).2 }

/-- First message with the given id in one room's array (the message
`findIndex` locates). -/
def findMsgLog (mid : Nat) : List Msg → Option Msg
  | [] => none
  | m :: rest => if m.id = mid then some m else findMsgLog mid rest

/-- First message with the given id across the rooms, in key-insertion
order — the message the `add_reaction`/`mark_read` search loops locate. -/
def findMsg (mid : Nat) : List (String × List Msg) → Option Msg
  | [] => none
  | (_, log) :: rest =>
    match findMsgLog mid log with
    | some m => some m
    | none => findMsg mid rest

/-- Which connections a single emission reaches, given the room-membership
relation: `socket.to(room)` reaches every member of `room` except the
emitting socket; `socket.emit` only the socket itself; `io.emit` everyone;
an ack only the caller. -/
def deliversTo (mem : List (String × String)) (t : String) : Emit → Prop
  | .toRoom sid room _ => (t, room) ∈ mem ∧ t ≠ sid
  | .toSelf sid _ => t = sid
  | .broadcast _ => True
  | .ack sid _ => t = sid

/-- The event payload of an emission (acks carry no event). -/
def emitted : Emit → Option Event
  | .toRoom _ _ e => some e
  | .toSelf _ e => some e
  | .broadcast e => some e
  | .ack _ _ => none

/-- Connection `t` receives event `e` from the emission list `ems`. -/
def receivesEvent (mem : List (String × String)) (ems : List Emit)
    (t : String) (e : Event) : Prop :=
  ∃ em ∈ ems, deliversTo mem t em ∧ emitted em = some e

end SocketChat

namespace SocketChat

/-! ### Helper lemmas about the message search loops -/

theorem findMsgLog_eq_none {mid : Nat} {log : List Msg} :
    findMsgLog mid log = none ↔ ∀ x ∈ log, x.id ≠ mid := by
  induction log with
  | nil => simp [findMsgLog]
  | cons m rest ih =>
    simp only [findMsgLog, List.mem_cons]
    split
    · next h => simp [h]
    · next h => simp [ih, h]

theorem findMsgLog_decomp {mid : Nat} {log : List Msg} {m : Msg}
    (h : findMsgLog mid log = some m) :
    ∃ pre post, log = pre ++ m :: post ∧ (∀ x ∈ pre, x.id ≠ mid) ∧ m.id = mid := by
  induction log with
  | nil => simp [findMsgLog] at h
  | cons m' rest ih =>
    rw [findMsgLog] at h
    split at h
    · next hid =>
      obtain rfl : m' = m := by simpa using h
      exact ⟨[], rest, rfl, by simp, hid⟩
    · next hid =>
      obtain ⟨pre, post, rfl, hpre, hm⟩ := ih h
      exact ⟨m' :: pre, post, rfl, by simpa [hid] using hpre, hm⟩

theorem findMsgLog_append_first {mid : Nat} {pre post : List Msg} {m : Msg}
    (hpre : ∀ x ∈ pre, x.id ≠ mid) (hm : m.id = mid) :
    findMsgLog mid (pre ++ m :: post) = some m := by
  induction pre with
  | nil => simp [findMsgLog, hm]
  | cons p pre' ih =>
    rw [List.cons_append, findMsgLog, if_neg (hpre p (by simp))]
    exact ih (fun x hx => hpre x (by simp [hx]))

theorem addReactionLog_eq_none {mid : Nat} {symbol : String} {log : List Msg}
    (h : ∀ x ∈ log, x.id ≠ mid) : addReactionLog mid symbol log = none := by
  induction log with
  | nil => rfl
  | cons m rest ih =>
    rw [addReactionLog, if_neg (h m (by simp)), ih (fun x hx => h x (by simp [hx]))]

theorem addReactionLog_append {mid : Nat} {symbol : String} {pre post : List Msg}
    {m : Msg} (hpre : ∀ x ∈ pre, x.id ≠ mid) (hm : m.id = mid) :
    addReactionLog mid symbol (pre ++ m :: post)
      = some (pre ++ ({ m with reactions := bumpReaction m.reactions symbol }) :: post,
          lookupCount m.reactions symbol + 1) := by
  induction pre with
  | nil => simp [addReactionLog, hm]
  | cons p pre' ih =>
    rw [List.cons_append, addReactionLog, if_neg (hpre p (by simp)),
      ih (fun x hx => hpre x (by simp [hx]))]
    rfl

theorem markReadLog_eq_none {u : String} {mid : Nat} {log : List Msg}
    (h : ∀ x ∈ log, x.id ≠ mid) : markReadLog u mid log = none := by
  induction log with
  | nil => rfl
  | cons m rest ih =>
    rw [markReadLog, if_neg (h m (by simp)), ih (fun x hx => h x (by simp [hx]))]

theorem markReadLog_append_mem {u : String} {mid : Nat} {pre post : List Msg}
    {m : Msg} (hpre : ∀ x ∈ pre, x.id ≠ mid) (hm : m.id = mid) (hmem : u ∈ m.readBy) :
    markReadLog u mid (pre ++ m :: post) = some (pre ++ m :: post, false) := by
  induction pre with
  | nil => simp [markReadLog, hm, hmem]
  | cons p pre' ih =>
    rw [List.cons_append, markReadLog, if_neg (hpre p (by simp)),
      ih (fun x hx => hpre x (by simp [hx]))]

theorem markReadLog_append_not {u : String} {mid : Nat} {pre post : List Msg}
    {m : Msg} (hpre : ∀ x ∈ pre, x.id ≠ mid) (hm : m.id = mid) (hnot : u ∉ m.readBy) :
    markReadLog u mid (pre ++ m :: post)
      = some (pre ++ ({ m with readBy := m.readBy ++ [u] }) :: post, true) := by
  induction pre with
  | nil => simp [markReadLog, hm, hnot]
  | cons p pre' ih =>
    rw [List.cons_append, markReadLog, if_neg (hpre p (by simp)),
      ih (fun x hx => hpre x (by simp [hx]))]
    rfl

theorem findMsg_eq_none {mid : Nat} {logs : List (String × List Msg)} :
    findMsg mid logs = none ↔ ∀ p ∈ logs, findMsgLog mid p.2 = none := by
  induction logs with
  | nil => simp [findMsg]
  | cons p rest ih =>
    obtain ⟨r, log⟩ := p
    simp only [findMsg, List.mem_cons]
    split
    · next m hm => simp [hm]
    · next hm => simp [ih, hm]

theorem findMsg_decomp {mid : Nat} {logs : List (String × List Msg)} {m : Msg}
    (h : findMsg mid logs = some m) :
    ∃ preR r log postR, logs = preR ++ (r, log) :: postR
      ∧ (∀ p ∈ preR, findMsgLog mid p.2 = none)
      ∧ findMsgLog mid log = some m := by
  induction logs with
  | nil => simp [findMsg] at h
  | cons p rest ih =>
    obtain ⟨r, log⟩ := p
    rw [findMsg] at h
    split at h
    · next m' hm =>
      obtain rfl : m' = m := by simpa using h
      exact ⟨[], r, log, rest, rfl, by simp, hm⟩
    · next hm =>
      obtain ⟨preR, r', log', postR, rfl, hpre, hlog⟩ := ih h
      exact ⟨(r, log) :: preR, r', log', postR, rfl, by simpa [hm] using hpre, hlog⟩

theorem findMsg_append_first {mid : Nat} {preR postR : List (String × List Msg)}
    {r : String} {log : List Msg} {m : Msg}
    (hpre : ∀ p ∈ preR, findMsgLog mid p.2 = none)
    (hlog : findMsgLog mid log = some m) :
    findMsg mid (preR ++ (r, log) :: postR) = some m := by
  induction preR with
  | nil => simp [findMsg, hlog]
  | cons p pre' ih =>
    obtain ⟨r', log'⟩ := p
    rw [List.cons_append, findMsg, hpre ⟨r', log'⟩ (by simp)]
    exact ih (fun x hx => hpre x (by simp [hx]))

theorem addReactionRooms_skip {mid : Nat} {symbol : String}
    {preR rest : List (String × List Msg)}
    (h : ∀ p ∈ preR, findMsgLog mid p.2 = none) :
    addReactionRooms mid symbol (preR ++ rest)
      = (preR ++ (addReactionRooms mid symbol rest).1,
         (addReactionRooms mid symbol rest).2) := by
  induction preR with
  | nil => simp
  | cons p pre' ih =>
    obtain ⟨r, log⟩ := p
    rw [List.cons_append, addReactionRooms,
      addReactionLog_eq_none (findMsgLog_eq_none.mp (h ⟨r, log⟩ (by simp))),
      ih (fun x hx => h x (by simp [hx]))]
    rfl

theorem markReadRooms_skip {u : String} {mid : Nat}
    {preR rest : List (String × List Msg)}
    (h : ∀ p ∈ preR, findMsgLog mid p.2 = none) :
    markReadRooms u mid (preR ++ rest)
      = (preR ++ (markReadRooms u mid rest).1, (markReadRooms u mid rest).2) := by
  induction preR with
  | nil => simp
  | cons p pre' ih =>
    obtain ⟨r, log⟩ := p
    rw [List.cons_append, markReadRooms,
      markReadLog_eq_none (findMsgLog_eq_none.mp (h ⟨r, log⟩ (by simp))),
      ih (fun x hx => h x (by simp [hx]))]
    rfl

theorem addReactionRooms_not_found {mid : Nat} {symbol : String}
    {logs : List (String × List Msg)} (h : findMsg mid logs = none) :
    addReactionRooms mid symbol logs = (logs, []) := by
  have := @addReactionRooms_skip mid symbol logs [] (findMsg_eq_none.mp h)
  simpa [addReactionRooms] using this

theorem markReadRooms_not_found {u : String} {mid : Nat}
    {logs : List (String × List Msg)} (h : findMsg mid logs = none) :
    markReadRooms u mid logs = (logs, []) := by
  have := @markReadRooms_skip u mid logs [] (findMsg_eq_none.mp h)
  simpa [markReadRooms] using this

end SocketChat

namespace SocketChat

theorem addReactionRooms_found {mid : Nat} {symbol : String}
    {logs : List (String × List Msg)} {m : Msg} (h : findMsg mid logs = some m) :
    ∃ logs', addReactionRooms mid symbol logs
        = (logs', [Emit.broadcast
            (.reaction_added mid symbol (lookupCount m.reactions symbol + 1))])
      ∧ findMsg mid logs'
          = some { m with reactions := bumpReaction m.reactions symbol } := by
  obtain ⟨preR, r, log, postR, rfl, hpre, hlog⟩ := findMsg_decomp h
  obtain ⟨pre, post, rfl, hpre2, hm⟩ := findMsgLog_decomp hlog
  rw [addReactionRooms_skip hpre, addReactionRooms,
    addReactionLog_append hpre2 hm]
  refine ⟨_, rfl, ?_⟩
  exact findMsg_append_first hpre (findMsgLog_append_first hpre2 (by simpa using hm))

theorem markReadRooms_found_not {u : String} {mid : Nat}
    {logs : List (String × List Msg)} {m : Msg} (h : findMsg mid logs = some m)
    (hnot : u ∉ m.readBy) :
    ∃ logs', markReadRooms u mid logs
        = (logs', [Emit.broadcast (.message_read mid u)])
      ∧ findMsg mid logs' = some { m with readBy := m.readBy ++ [u] } := by
  obtain ⟨preR, r, log, postR, rfl, hpre, hlog⟩ := findMsg_decomp h
  obtain ⟨pre, post, rfl, hpre2, hm⟩ := findMsgLog_decomp hlog
  rw [markReadRooms_skip hpre, markReadRooms, markReadLog_append_not hpre2 hm hnot]
  refine ⟨_, rfl, ?_⟩
  exact findMsg_append_first hpre (findMsgLog_append_first hpre2 (by simpa using hm))

theorem markReadRooms_found_mem {u : String} {mid : Nat}
    {logs : List (String × List Msg)} {m : Msg} (h : findMsg mid logs = some m)
    (hmem : u ∈ m.readBy) : markReadRooms u mid logs = (logs, []) := by
  obtain ⟨preR, r, log, postR, rfl, hpre, hlog⟩ := findMsg_decomp h
  obtain ⟨pre, post, rfl, hpre2, hm⟩ := findMsgLog_decomp hlog
  rw [markReadRooms_skip hpre, markReadRooms, markReadLog_append_mem hpre2 hm hmem]

theorem lookupCount_bumpReaction_self (rs : List (String × Nat)) (s : String) :
    lookupCount (bumpReaction rs s) s = lookupCount rs s + 1 := by
  induction rs with
  | nil => simp [bumpReaction, lookupCount]
  | cons p rest ih =>
    obtain ⟨k, c⟩ := p
    by_cases hk : k = s <;> simp [bumpReaction, lookupCount, hk, ih]

theorem lookupCount_bumpReaction_other (rs : List (String × Nat)) {s s' : String}
    (h : s' ≠ s) : lookupCount (bumpReaction rs s) s' = lookupCount rs s' := by
  have h' : s ≠ s' := Ne.symm h
  induction rs with
  | nil => simp [bumpReaction, lookupCount, h']
  | cons p rest ih =>
    obtain ⟨k, c⟩ := p
    by_cases hk : k = s
    · subst hk
      simp [bumpReaction, lookupCount, h']
    · simp [bumpReaction, lookupCount, hk, ih]

theorem lookupLog_setLog_self {logs : List (String × List Msg)} {r : String}
    {l l' : List Msg} (h : lookupLog logs r = some l) :
    lookupLog (setLog logs r l') r = some l' := by
  induction logs with
  | nil => simp [lookupLog] at h
  | cons p rest ih =>
    obtain ⟨k, v⟩ := p
    by_cases hk : k = r
    · simp [setLog, lookupLog, hk]
    · rw [lookupLog, if_neg hk] at h
      simp [setLog, lookupLog, hk, ih h]

/-- What a whole history of appends through the bounded push produces:
exactly the `ms.length - 100` oldest messages are gone, the rest stand in
append order. -/
theorem foldl_pushBounded (ms : List Msg) :
    List.foldl pushBounded [] ms = ms.drop (ms.length - 100) := by
  induction ms using List.reverseRecOn with
  | nil => rfl
  | append_singleton ms m ih =>
    rw [List.foldl_append, List.foldl_cons, List.foldl_nil, ih]
    simp only [pushBounded, List.length_append, List.length_drop,
      List.length_singleton]
    split
    · next hgt =>
      have hms : 100 ≤ ms.length := by omega
      have e1 : ms.length - 100 + 1 = ms.length + 1 - 100 := by omega
      have e2 : 1 - (ms.length - (ms.length - 100)) = 0 := by omega
      have e3 : ms.length + 1 - 100 - ms.length = 0 := by omega
      rw [List.drop_append_eq_append_drop, List.drop_append_eq_append_drop,
        List.drop_drop, List.length_drop, e1, e2, e3]
    · next hle =>
      have e0 : ms.length - 100 = 0 := by omega
      have e1 : ms.length + 1 - 100 = 0 := by omega
      rw [e0, e1, List.drop_zero, List.drop_zero]

theorem foldl_pushBounded_le (ms : List Msg) :
    (List.foldl pushBounded [] ms).length ≤ 100 := by
  rw [foldl_pushBounded, List.length_drop]
  omega

end SocketChat

namespace SocketChat

/-! ### Claim theorems -/

/-- C2: the claim says message ids are distinct, strictly increasing and never
reused across the process.  The code draws every id from `Date.now()`
(server.js:56, 106, 145), so two messages created within the same
millisecond receive the same id.  This theorem evaluates the code at such a
failing input: two `send_message` events handled at the same clock value 5
store two messages in the `general` log whose ids are both 5 — the id is
reused and neither distinctness nor strict monotonicity holds. -/
theorem c2_id_collision :
    ((send_message initState "s1" { message := "a", room := none } true 5).bind fun p1 =>
      (send_message p1.1 "s2" { message := "b", room := none } true 5).map fun p2 =>
        (lookupLog p2.1.messages "general").map (List.map Msg.id))
    = some (some [5, 5]) := by
  rfl

/-- C4: the claim says `send_message`/`send_file` on an unknown non-empty
room return an error result through the acknowledgment channel.  In the code
there is no such check: `messages[room]` is `undefined` for any room outside
the configured three, so `messages[room].push(...)` (server.js:68, 156)
throws a `TypeError` before the callback or any emission runs — the handler
aborts (modelled by `none`) and no error acknowledgment is ever produced. -/
theorem c4_unknown_room_crash :
    lookupLog initState.messages "lobby" = none
    ∧ send_message initState "s1" { message := "hi", room := some "lobby" } true 0 = none
    ∧ send_file initState "s1"
        { file := "f", fileName := "n", fileType := "t", room := some "lobby" } 0 = none :=
  ⟨rfl, rfl, rfl⟩

/-- C9: a `typing` event from a session id absent from the user registry
changes no state and emits nothing (server.js:85-102 guards the whole body
with `if (users[socket.id])`), whereas a message send from the same
unregistered session is not dropped: it still succeeds, with the sender
falling back to `'Anonymous'`. -/
theorem c9_typing_unregistered_noop (st : ServerState) (sid : String)
    (d : TypingData) (b : String) (now : Nat)
    (h : lookupUser st.users sid = none)
    (hg : (lookupLog st.messages "general").isSome) :
    typing st sid d = (st, [])
    ∧ send_message st sid { message := b, room := none } true now ≠ none
    ∧ (mkRoomMessage st.users sid { message := b, room := none } now).sender
        = "Anonymous" := by
  refine ⟨?_, ?_, ?_⟩
  · rw [typing, h]
  · obtain ⟨log, hlog⟩ := Option.isSome_iff_exists.mp hg
    simp [send_message, resolveRoom, hlog]
  · simp [mkRoomMessage, resolveName, h]

theorem c9_typing_unregistered_noop_witness :
    typing initState "z" { isTyping := true, room := none } = (initState, [])
    ∧ send_message initState "z" { message := "hi", room := none } true 1 ≠ none
    ∧ (mkRoomMessage initState.users "z" { message := "hi", room := none } 1).sender
        = "Anonymous" :=
  c9_typing_unregistered_noop initState "z" { isTyping := true, room := none }
    "hi" 1 rfl (by decide)

/-- C1: each append performed by `send_message` (server.js:68-73) or
`send_file` (server.js:156-160) replaces the room's array by
`pushBounded` (push at the tail, shift from the head once the length
exceeds 100); consequently, iterating the bounded push from the empty log
keeps the length at or under 100 after every step, and after more than 100
appends the log is exactly the 100 most recent messages in append order —
the older ones are dropped from the head (FIFO) and unrecoverable. -/
theorem c1_bounded_fifo (st stf st' stf' : ServerState) (ems emsf : List Emit)
    (sid : String) (data : MessageData) (fd : FileData) (now : Nat)
    (log logf ms : List Msg) (k : Nat)
    (h1 : send_message st sid data true now = some (st', ems))
    (hlog : lookupLog st.messages (resolveRoom data.room) = some log)
    (h2 : send_file stf sid fd now = some (stf', emsf))
    (hlogf : lookupLog stf.messages (resolveRoom fd.room) = some logf)
    (hN : 100 < ms.length) :
    lookupLog st'.messages (resolveRoom data.room)
      = some (pushBounded log (mkRoomMessage st.users sid data now))
    ∧ lookupLog stf'.messages (resolveRoom fd.room)
      = some (pushBounded logf (mkFileMessage stf.users sid fd now))
    ∧ (List.foldl pushBounded [] (ms.take k)).length ≤ 100
    ∧ List.foldl pushBounded [] ms = ms.drop (ms.length - 100)
    ∧ (List.foldl pushBounded [] ms).length = 100 := by
  refine ⟨?_, ?_, foldl_pushBounded_le (ms.take k), foldl_pushBounded ms, ?_⟩
  · simp only [send_message, hlog, Option.some.injEq, Prod.mk.injEq] at h1
    obtain ⟨hst, -⟩ := h1
    rw [← hst]
    exact lookupLog_setLog_self hlog
  · simp only [send_file, hlogf, Option.some.injEq, Prod.mk.injEq] at h2
    obtain ⟨hst, -⟩ := h2
    rw [← hst]
    exact lookupLog_setLog_self hlogf
  · rw [foldl_pushBounded, List.length_drop]
    omega

def mW1 : Msg := mkRoomMessage initState.users "s" { message := "hi", room := none } 7

def stW1 : ServerState :=
  { users := [], messages := [("general", [mW1]), ("random", []), ("help", [])],
    typingUsers := [], membership := [] }

def emsW1 : List Emit :=
  [Emit.ack "s" { success := true, messageId := 7 },
   Emit.toRoom "s" "general" (.receive_message mW1)]

def fdW : FileData := { file := "f", fileName := "n", fileType := "t", room := none }

def mF1 : Msg := mkFileMessage initState.users "s" fdW 7

def stF1 : ServerState :=
  { users := [], messages := [("general", [mF1]), ("random", []), ("help", [])],
    typingUsers := [], membership := [] }

def emsF1 : List Emit :=
  [Emit.toRoom "s" "general" (.receive_file mF1), Emit.toSelf "s" (.receive_file mF1)]

def msW : List Msg :=
  (List.range 101).map (fun i => { id := i, sender := "u", senderId := "s" })

theorem c1_bounded_fifo_witness :
    lookupLog stW1.messages (resolveRoom (none : Option String)) = some (pushBounded [] mW1)
    ∧ lookupLog stF1.messages (resolveRoom (none : Option String)) = some (pushBounded [] mF1)
    ∧ (List.foldl pushBounded [] (msW.take 101)).length ≤ 100
    ∧ List.foldl pushBounded [] msW = msW.drop (msW.length - 100)
    ∧ (List.foldl pushBounded [] msW).length = 100 :=
  c1_bounded_fifo initState initState stW1 stF1 emsW1 emsF1 "s"
    { message := "hi", room := none } fdW 7 [] [] msW 101 rfl rfl rfl rfl
    (by simp [msW])

end SocketChat

namespace SocketChat

/-- Closed form of the `load_messages` window on one room's array, covering
both regimes of the JS `slice`: for `offset ≤ length` the window is the
`limit` most recent messages ending `offset` before the tail; for
`offset > length` the end index `length - offset` is negative, so `slice`
wraps it to `length + (length - offset)` and the call returns the oldest
`2*length - offset` messages (clamped at zero) instead of an empty list. -/
theorem sliceWindow_spec (log : List Msg) (L F : Nat) :
    sliceWindow log L F
      = (if F ≤ log.length
          then ((log.take (log.length - F)).drop (log.length - F - L),
                decide (0 < log.length - F - L))
          else (log.take (2 * log.length - F), false)) := by
  have hs : ((log.length : Int) - L - F).toNat = log.length - L - F := by omega
  simp only [sliceWindow, jsSlice, hs]
  rw [if_neg (by omega : ¬ ((log.length - L - F : Nat) : Int) < 0)]
  by_cases hF : F ≤ log.length
  · rw [if_pos hF, if_neg (by omega : ¬ ((log.length : Int) - F) < 0)]
    have e1 : (min ((log.length : Int) - F) log.length).toNat = log.length - F := by omega
    have e2 : (min ((log.length - L - F : Nat) : Int) (log.length : Int)).toNat
        = log.length - F - L := by omega
    have e3 : log.length - L - F = log.length - F - L := by omega
    rw [e1, e2, e3]
  · rw [if_neg hF, if_pos (by omega : ((log.length : Int) - F) < 0)]
    have e1 : (max ((log.length : Int) + ((log.length : Int) - F)) 0).toNat
        = 2 * log.length - F := by omega
    have e2 : (min ((log.length - L - F : Nat) : Int) (log.length : Int)).toNat = 0 := by
      omega
    have e3 : log.length - L - F = 0 := by omega
    rw [e1, e2, e3, List.drop_zero]
    simp

def mkMsgW (i : Nat) : Msg := { id := i, sender := "u", senderId := "s" }

/-- C3 counterexample: the claim states that when the requested window falls
entirely outside the log (`offset ≥ length`) the result is empty.  With a
log of 2 messages, `limit = 1` and `offset = 3`, the code computes
`endIndex = 2 - 3 = -1`; the JS `slice` interprets the negative end index
from the end of the array and returns the oldest message — a non-empty
result. -/
theorem c3_counterexample :
    [mkMsgW 0, mkMsgW 1].length ≤ 3
    ∧ (sliceWindow [mkMsgW 0, mkMsgW 1] 1 3).1 = [mkMsgW 0]
    ∧ (sliceWindow [mkMsgW 0, mkMsgW 1] 1 3).1 ≠ [] := by
  decide

/-- C3 (amended): for `offset ≤ length`, `load_messages` returns the window
of the `limit` most recent messages ending `offset` before the tail, clamped
to the available range, with `hasMore` true iff older messages exist before
the window's start; the 50-message pagination examples hold as stated.  For
`offset > length`, however, the result is not empty: the negative JS slice
end index wraps, yielding the oldest `2*length - offset` messages (clamped
at zero) with `hasMore = false`. -/
theorem c3_amended_window (log : List Msg) (L F : Nat) (st : ServerState)
    (room : String) :
    (F ≤ log.length →
      sliceWindow log L F
        = ((log.take (log.length - F)).drop (log.length - F - L),
           decide (0 < log.length - F - L)))
    ∧ (log.length < F →
      sliceWindow log L F = (log.take (2 * log.length - F), false))
    ∧ load_messages st room L F
        = { success := true,
            messages := (sliceWindow ((lookupLog st.messages room).getD []) L F).1,
            hasMore := (sliceWindow ((lookupLog st.messages room).getD []) L F).2 }
    ∧ (log.length = 50 →
        sliceWindow log 20 0 = (log.drop 30, true)
        ∧ sliceWindow log 20 20 = ((log.take 30).drop 10, true)
        ∧ sliceWindow log 20 40 = (log.take 10, false)) := by
  refine ⟨?_, ?_, rfl, ?_⟩
  · intro hF
    rw [sliceWindow_spec, if_pos hF]
  · intro hF
    rw [sliceWindow_spec, if_neg (by omega)]
  · intro h50
    have htake : log.take 50 = log := by
      rw [← h50]
      exact List.take_length log
    refine ⟨?_, ?_, ?_⟩
    · rw [sliceWindow_spec, if_pos (by omega), h50]
      norm_num [htake]
    · rw [sliceWindow_spec, if_pos (by omega), h50]
      norm_num
    · rw [sliceWindow_spec, if_pos (by omega), h50]
      norm_num

def msW50 : List Msg :=
  (List.range 50).map (fun i => { id := i, sender := "u", senderId := "s" })

theorem c3_amended_window_witness :
    sliceWindow msW50 20 40
      = ((msW50.take (msW50.length - 40)).drop (msW50.length - 40 - 20),
         decide (0 < msW50.length - 40 - 20))
    ∧ sliceWindow msW50 20 40 = (msW50.take 10, false) :=
  ⟨(c3_amended_window msW50 20 40 initState "general").1 (by simp [msW50]),
   ((c3_amended_window msW50 20 40 initState "general").2.2.2 (by simp [msW50])).2.2⟩

end SocketChat

namespace SocketChat

/-- C5: a stored room message is fanned out via `socket.to(room)`
(server.js:81), i.e. to exactly the members of the room other than the
sender, while the sender gets only the synchronous acknowledgment with the
assigned id; a stored file message is additionally emitted to the sender
itself (`socket.emit`, server.js:162-163), so its fan-out includes the
sender. -/
theorem c5_fanout (st st1 st2 : ServerState) (ems1 ems2 : List Emit)
    (sid t : String) (data : MessageData) (fd : FileData) (now : Nat)
    (h1 : send_message st sid data true now = some (st1, ems1))
    (h2 : send_file st sid fd now = some (st2, ems2)) :
    Emit.ack sid { success := true, messageId := now } ∈ ems1
    ∧ (receivesEvent st.membership ems1 t
        (.receive_message (mkRoomMessage st.users sid data now))
        ↔ ((t, resolveRoom data.room) ∈ st.membership ∧ t ≠ sid))
    ∧ ¬ receivesEvent st.membership ems1 sid
        (.receive_message (mkRoomMessage st.users sid data now))
    ∧ (receivesEvent st.membership ems2 t
        (.receive_file (mkFileMessage st.users sid fd now))
        ↔ (((t, resolveRoom fd.room) ∈ st.membership ∧ t ≠ sid) ∨ t = sid))
    ∧ receivesEvent st.membership ems2 sid
        (.receive_file (mkFileMessage st.users sid fd now)) := by
  simp only [send_message] at h1
  simp only [send_file] at h2
  cases hlog1 : lookupLog st.messages (resolveRoom data.room) with
  | none => rw [hlog1] at h1; exact absurd h1 (by simp)
  | some log1 =>
  cases hlog2 : lookupLog st.messages (resolveRoom fd.room) with
  | none => rw [hlog2] at h2; exact absurd h2 (by simp)
  | some log2 =>
  rw [hlog1] at h1
  rw [hlog2] at h2
  simp only [if_true, Option.some.injEq, Prod.mk.injEq] at h1 h2
  obtain ⟨-, hems1⟩ := h1
  obtain ⟨-, hems2⟩ := h2
  rw [← hems1, ← hems2]
  refine ⟨by simp, ?_, ?_, ?_, ?_⟩
  · simp [receivesEvent, deliversTo, emitted]
  · simp [receivesEvent, deliversTo, emitted]
  · simp [receivesEvent, deliversTo, emitted]
  · simp [receivesEvent, deliversTo, emitted]

def uA : User := { username := "alice", id := "a", currentRoom := "general" }

def uB : User := { username := "bob", id := "b", currentRoom := "general" }

def stW5 : ServerState :=
  { users := [("a", uA), ("b", uB)], messages := initLogs, typingUsers := [],
    membership := [("a", "general"), ("b", "general"), ("a", "a"), ("b", "b")] }

def mW5 : Msg := mkRoomMessage stW5.users "a" { message := "hi", room := none } 3

def stW5m : ServerState :=
  { stW5 with messages := [("general", [mW5]), ("random", []), ("help", [])] }

def emsW5 : List Emit :=
  [Emit.ack "a" { success := true, messageId := 3 },
   Emit.toRoom "a" "general" (.receive_message mW5)]

def mF5 : Msg := mkFileMessage stW5.users "a" fdW 3

def stF5 : ServerState :=
  { stW5 with messages := [("general", [mF5]), ("random", []), ("help", [])] }

def emsF5 : List Emit :=
  [Emit.toRoom "a" "general" (.receive_file mF5), Emit.toSelf "a" (.receive_file mF5)]

theorem c5_fanout_witness :
    Emit.ack "a" { success := true, messageId := 3 } ∈ emsW5
    ∧ (receivesEvent stW5.membership emsW5 "b" (.receive_message mW5)
        ↔ (("b", resolveRoom (none : Option String)) ∈ stW5.membership ∧ "b" ≠ "a"))
    ∧ ¬ receivesEvent stW5.membership emsW5 "a" (.receive_message mW5)
    ∧ (receivesEvent stW5.membership emsF5 "b" (.receive_file mF5)
        ↔ ((("b", resolveRoom fdW.room) ∈ stW5.membership ∧ "b" ≠ "a") ∨ "b" = "a"))
    ∧ receivesEvent stW5.membership emsF5 "a" (.receive_file mF5) :=
  c5_fanout stW5 stW5m stF5 emsW5 emsF5 "a" "b" { message := "hi", room := none }
    fdW 3 rfl rfl

/-- C6: for a message present in some room log and a registered session with
username `u` not yet in its `readBy`, the first `mark_read` appends `u` to
`readBy` (so `u` occurs exactly once) and emits one `message_read`
broadcast, and a second `mark_read` with the same id and user leaves the
state unchanged and emits nothing (server.js:187-204) — read receipts are
idempotent. -/
theorem c6_mark_read_idempotent (st st1 : ServerState) (ems1 : List Emit)
    (sid : String) (usr : User) (mid : Nat) (m : Msg)
    (hu : lookupUser st.users sid = some usr)
    (hm : findMsg mid st.messages = some m)
    (hnot : usr.username ∉ m.readBy)
    (hrun : mark_read st sid mid = (st1, ems1)) :
    ems1 = [Emit.broadcast (.message_read mid usr.username)]
    ∧ findMsg mid st1.messages = some { m with readBy := m.readBy ++ [usr.username] }
    ∧ (m.readBy ++ [usr.username]).count usr.username = 1
    ∧ mark_read st1 sid mid = (st1, []) := by
  obtain ⟨logs', hrooms, hfind⟩ := markReadRooms_found_not hm hnot
  rw [mark_read] at hrun
  rw [hu] at hrun
  simp only [hrooms, Prod.mk.injEq] at hrun
  obtain ⟨hst1, hems1⟩ := hrun
  subst hst1
  refine ⟨hems1.symm, hfind, ?_, ?_⟩
  · have h0 : m.readBy.count usr.username = 0 := List.count_eq_zero.mpr hnot
    simp [List.count_append, h0]
  · have hmem : usr.username ∈ ({ m with readBy := m.readBy ++ [usr.username] } : Msg).readBy := by
      simp
    have hnoop := markReadRooms_found_mem hfind hmem
    rw [mark_read]
    rw [show lookupUser ({ st with messages := logs' } : ServerState).users sid
        = some usr from hu]
    simp only [hnoop]

def msg42 : Msg := { id := 42, sender := "bob", senderId := "b" }

def stW6 : ServerState :=
  { users := [("a", uA)],
    messages := [("general", [msg42]), ("random", []), ("help", [])],
    typingUsers := [], membership := [] }

def stW6m : ServerState :=
  { stW6 with messages :=
      [("general", [{ msg42 with readBy := msg42.readBy ++ ["alice"] }]),
       ("random", []), ("help", [])] }

theorem c6_mark_read_idempotent_witness :
    ([Emit.broadcast (.message_read 42 "alice")]
        = [Emit.broadcast (.message_read 42 "alice")])
    ∧ findMsg 42 stW6m.messages = some { msg42 with readBy := msg42.readBy ++ ["alice"] }
    ∧ (msg42.readBy ++ ["alice"]).count "alice" = 1
    ∧ mark_read stW6m "a" 42 = (stW6m, []) :=
  c6_mark_read_idempotent stW6 stW6m [Emit.broadcast (.message_read 42 "alice")]
    "a" uA 42 msg42 rfl rfl (by decide) rfl

end SocketChat

namespace SocketChat

/-- One `add_reaction` event per session id in the list, in order — the
shape of `k` successive reaction clicks arriving at the server. -/
def add_reaction_iter (sids : List String) (mid : Nat) (symbol : String)
    (st : ServerState) : ServerState × List (List Emit) :=
  match sids with
  | [] => (st, [])
  | sid :: rest =>
    let res := add_reaction st sid mid symbol
    let res2 := add_reaction_iter rest mid symbol res.1
    (res2.1, res.2 :: res2.2)

theorem add_reaction_iter_emits (sids : List String) (st : ServerState)
    (mid : Nat) (symbol : String) (m : Msg) (c : Nat)
    (hreg : ∀ s ∈ sids, (lookupUser st.users s).isSome)
    (hm : findMsg mid st.messages = some m)
    (hc : lookupCount m.reactions symbol = c) :
    (add_reaction_iter sids mid symbol st).2
      = (List.range sids.length).map
          (fun j => [Emit.broadcast (.reaction_added mid symbol (c + j + 1))]) := by
  induction sids generalizing st m c with
  | nil => rfl
  | cons sid rest ih =>
    obtain ⟨usr, husr⟩ := Option.isSome_iff_exists.mp (hreg sid (by simp))
    obtain ⟨logs', hrooms, hfind⟩ := @addReactionRooms_found mid symbol st.messages m hm
    have hstep : add_reaction st sid mid symbol
        = ({ st with messages := logs' },
           [Emit.broadcast (.reaction_added mid symbol (c + 1))]) := by
      rw [add_reaction]
      rw [husr]
      simp only [hrooms, hc]
    have hcount :
        lookupCount ({ m with reactions := bumpReaction m.reactions symbol } : Msg).reactions
          symbol = c + 1 := by
      simp [lookupCount_bumpReaction_self, hc]
    have ihh := ih { st with messages := logs' }
      { m with reactions := bumpReaction m.reactions symbol } (c + 1)
      (fun s hs => hreg s (by simp [hs])) hfind hcount
    simp only [add_reaction_iter, hstep, ihh, List.length_cons]
    rw [List.range_succ_eq_map, List.map_cons, List.map_map]
    congr 1
    apply List.map_congr_left
    intro j _
    have h3 : c + 1 + j + 1 = c + Nat.succ j + 1 := by omega
    simp [Function.comp, h3]

/-- C7: from a message whose `reactions[symbol]` starts absent (count 0),
`k` successive `add_reaction` events from registered sessions broadcast the
counts `1, 2, ..., k` (server.js:167-184 increments with a default of 0 and
broadcasts the updated count), while an `add_reaction` for an id present in
no room log changes nothing and emits nothing. -/
theorem c7_reaction_counts (st stn : ServerState) (sids : List String)
    (sid : String) (mid midn : Nat) (symbol : String) (m : Msg)
    (hreg : ∀ s ∈ sids, (lookupUser st.users s).isSome)
    (hm : findMsg mid st.messages = some m)
    (h0 : lookupCount m.reactions symbol = 0)
    (hn : findMsg midn stn.messages = none) :
    (add_reaction_iter sids mid symbol st).2
      = (List.range sids.length).map
          (fun j => [Emit.broadcast (.reaction_added mid symbol (j + 1))])
    ∧ add_reaction stn sid midn symbol = (stn, []) := by
  constructor
  · have h := add_reaction_iter_emits sids st mid symbol m 0 hreg hm h0
    simpa using h
  · rw [add_reaction]
    cases husr : lookupUser stn.users sid with
    | none => rfl
    | some u => simp only [addReactionRooms_not_found hn]

def msg43 : Msg := { id := 43, sender := "bob", senderId := "b" }

def stW7 : ServerState :=
  { users := [("a", uA), ("b", uB)],
    messages := [("general", [msg43]), ("random", []), ("help", [])],
    typingUsers := [], membership := [] }

theorem c7_reaction_counts_witness :
    (add_reaction_iter ["a", "b"] 43 "up" stW7).2
      = (List.range 2).map (fun j => [Emit.broadcast (.reaction_added 43 "up" (j + 1))])
    ∧ add_reaction initState "z" 99 "up" = (initState, []) :=
  c7_reaction_counts stW7 initState ["a", "b"] "z" 43 99 "up" msg43
    (by decide) rfl rfl rfl

/-- C8: a `private_message` leaves the entire server state — in particular
every room log — untouched, synchronously acknowledges the sender with the
fresh id whether or not the recipient is connected, and its single event
emission (`socket.to(to)`, server.js:123) can only reach the recipient's
connection, given that the room named by the recipient's session id contains
at most that session. -/
theorem c8_private_message_frame (st : ServerState) (sid recipient body : String)
    (now : Nat)
    (hp : ∀ s, (s, recipient) ∈ st.membership → s = recipient) :
    (private_message st sid recipient body true now).1 = st
    ∧ (private_message st sid recipient body true now).1.messages = st.messages
    ∧ (private_message st sid recipient body true now).2
        = [Emit.ack sid { success := true, messageId := now },
           Emit.toRoom sid recipient
             (.private_message (mkPrivateMessage st.users sid recipient body now))]
    ∧ (mkPrivateMessage st.users sid recipient body now).id = now
    ∧ (mkPrivateMessage st.users sid recipient body now).isPrivate = true
    ∧ (mkPrivateMessage st.users sid recipient body now).senderId = sid
    ∧ ∀ t, receivesEvent st.membership (private_message st sid recipient body true now).2
          t (.private_message (mkPrivateMessage st.users sid recipient body now))
        → t = recipient := by
  refine ⟨rfl, rfl, rfl, rfl, rfl, rfl, ?_⟩
  intro t ht
  obtain ⟨em, hem, hdel, hev⟩ := ht
  simp only [private_message, if_true, List.mem_append, List.mem_singleton,
    List.mem_cons, List.not_mem_nil, or_false] at hem
  rcases hem with rfl | rfl
  · simp [emitted] at hev
  · exact hp t hdel.1

def stW8 : ServerState :=
  { users := [("a", uA), ("b", uB)], messages := initLogs, typingUsers := [],
    membership := [("b", "b"), ("b", "general"), ("a", "a"), ("a", "general")] }

theorem c8_private_message_frame_witness :
    (private_message stW8 "a" "b" "yo" true 9).1 = stW8
    ∧ (private_message stW8 "a" "b" "yo" true 9).1.messages = stW8.messages
    ∧ (private_message stW8 "a" "b" "yo" true 9).2
        = [Emit.ack "a" { success := true, messageId := 9 },
           Emit.toRoom "a" "b"
             (.private_message (mkPrivateMessage stW8.users "a" "b" "yo" 9))]
    ∧ ¬ receivesEvent stW8.membership (private_message stW8 "a" "b" "yo" true 9).2
          "a" (.private_message (mkPrivateMessage stW8.users "a" "b" "yo" 9)) := by
  have h := c8_private_message_frame stW8 "a" "b" "yo" 9 (by
    intro s hs
    simp only [stW8, List.mem_cons, List.not_mem_nil, or_false, Prod.mk.injEq] at hs
    rcases hs with ⟨h1, -⟩ | ⟨-, h2⟩ | ⟨-, h2⟩ | ⟨-, h2⟩ <;> simp_all)
  exact ⟨h.1, h.2.1, h.2.2.1, fun hr => absurd (h.2.2.2.2.2.2 "a" hr) (by decide)⟩

end SocketChat

namespace SocketChat

/-- C10: the `add_reaction` and `mark_read` searches mutate at most one
message.  When no message has the id, both leave every log untouched and
emit nothing.  Otherwise the logs decompose around the first match — first
room in key-insertion order (general, random, help), first index within that
room — and only that one message is replaced, by a record update that
touches only its `reactions` (respectively `readBy`) field; every message
before it has a different id, every other room and message is returned
unchanged, and counts of other reaction symbols are unchanged.  The last
conjunct restates that the full handlers delegate to these searches for any
registered session. -/
theorem c10_first_match_frame (logs logsA logsR : List (String × List Msg))
    (emsA emsR : List Emit) (mid : Nat) (symbol u : String)
    (hA : addReactionRooms mid symbol logs = (logsA, emsA))
    (hR : markReadRooms u mid logs = (logsR, emsR)) :
    (findMsg mid logs = none → logsA = logs ∧ emsA = [] ∧ logsR = logs ∧ emsR = [])
    ∧ (∀ m, findMsg mid logs = some m →
        ∃ preR r pre post postR,
          logs = preR ++ (r, pre ++ m :: post) :: postR
          ∧ (∀ p ∈ preR, ∀ x ∈ p.2, x.id ≠ mid)
          ∧ (∀ x ∈ pre, x.id ≠ mid)
          ∧ m.id = mid
          ∧ logsA = preR
              ++ (r, pre ++ ({ m with reactions := bumpReaction m.reactions symbol }) :: post)
              :: postR
          ∧ emsA = [Emit.broadcast
              (.reaction_added mid symbol (lookupCount m.reactions symbol + 1))]
          ∧ logsR = preR
              ++ (r, pre ++
                  (if u ∈ m.readBy then m else { m with readBy := m.readBy ++ [u] }) :: post)
              :: postR
          ∧ emsR = (if u ∈ m.readBy then [] else [Emit.broadcast (.message_read mid u)])
          ∧ (∀ s2, s2 ≠ symbol →
              lookupCount (bumpReaction m.reactions symbol) s2 = lookupCount m.reactions s2))
    ∧ (∀ st sid usr, lookupUser st.users sid = some usr →
        add_reaction st sid mid symbol
          = ({ st with messages := (addReactionRooms mid symbol st.messages).1 },
             (addReactionRooms mid symbol st.messages).2)
        ∧ mark_read st sid mid
          = ({ st with messages := (markReadRooms usr.username mid st.messages).1 },
             (markReadRooms usr.username mid st.messages).2)) := by
  refine ⟨?_, ?_, ?_⟩
  · intro hnone
    rw [addReactionRooms_not_found hnone] at hA
    rw [markReadRooms_not_found hnone] at hR
    obtain ⟨rfl, rfl⟩ := Prod.mk.inj hA.symm
    obtain ⟨rfl, rfl⟩ := Prod.mk.inj hR.symm
    exact ⟨rfl, rfl, rfl, rfl⟩
  · intro m hm
    obtain ⟨preR, r, log, postR, hlogs, hpre, hlog⟩ := findMsg_decomp hm
    obtain ⟨pre, post, hsplit, hpre2, hmid⟩ := findMsgLog_decomp hlog
    subst hsplit
    subst hlogs
    have hA2 : addReactionRooms mid symbol (preR ++ (r, pre ++ m :: post) :: postR)
        = (preR
            ++ (r, pre ++ ({ m with reactions := bumpReaction m.reactions symbol }) :: post)
            :: postR,
           [Emit.broadcast
             (.reaction_added mid symbol (lookupCount m.reactions symbol + 1))]) := by
      rw [addReactionRooms_skip hpre, addReactionRooms, addReactionLog_append hpre2 hmid]
    rw [hA2] at hA
    obtain ⟨rfl, rfl⟩ := Prod.mk.inj hA.symm
    refine ⟨preR, r, pre, post, postR, rfl,
      fun p hp => findMsgLog_eq_none.mp (hpre p hp), hpre2, hmid, rfl, rfl, ?_, ?_,
      fun s2 hs2 => lookupCount_bumpReaction_other m.reactions hs2⟩
    · by_cases hu : u ∈ m.readBy
      · have hR2 : markReadRooms u mid (preR ++ (r, pre ++ m :: post) :: postR)
            = (preR ++ (r, pre ++ m :: post) :: postR, []) := by
          rw [markReadRooms_skip hpre, markReadRooms, markReadLog_append_mem hpre2 hmid hu]
        rw [hR2] at hR
        rw [if_pos hu]
        exact (Prod.mk.inj hR.symm).1
      · have hR2 : markReadRooms u mid (preR ++ (r, pre ++ m :: post) :: postR)
            = (preR ++ (r, pre ++ ({ m with readBy := m.readBy ++ [u] }) :: post) :: postR,
               [Emit.broadcast (.message_read mid u)]) := by
          rw [markReadRooms_skip hpre, markReadRooms, markReadLog_append_not hpre2 hmid hu]
        rw [hR2] at hR
        rw [if_neg hu]
        exact (Prod.mk.inj hR.symm).1
    · by_cases hu : u ∈ m.readBy
      · have hR2 : markReadRooms u mid (preR ++ (r, pre ++ m :: post) :: postR)
            = (preR ++ (r, pre ++ m :: post) :: postR, []) := by
          rw [markReadRooms_skip hpre, markReadRooms, markReadLog_append_mem hpre2 hmid hu]
        rw [hR2] at hR
        rw [if_pos hu]
        exact (Prod.mk.inj hR.symm).2
      · have hR2 : markReadRooms u mid (preR ++ (r, pre ++ m :: post) :: postR)
            = (preR ++ (r, pre ++ ({ m with readBy := m.readBy ++ [u] }) :: post) :: postR,
               [Emit.broadcast (.message_read mid u)]) := by
          rw [markReadRooms_skip hpre, markReadRooms, markReadLog_append_not hpre2 hmid hu]
        rw [hR2] at hR
        rw [if_neg hu]
        exact (Prod.mk.inj hR.symm).2
  · intro st sid usr husr
    constructor
    · rw [add_reaction, husr]
    · rw [mark_read, husr]

def stW10 : ServerState :=
  { users := [("a", uA)], messages := initLogs, typingUsers := [], membership := [] }

theorem c10_first_match_frame_witness :
    (initLogs = initLogs ∧ ([] : List Emit) = []
      ∧ initLogs = initLogs ∧ ([] : List Emit) = [])
    ∧ add_reaction stW10 "a" 7 "up"
        = ({ stW10 with messages := (addReactionRooms 7 "up" stW10.messages).1 },
           (addReactionRooms 7 "up" stW10.messages).2) :=
  ⟨(c10_first_match_frame initLogs initLogs initLogs [] [] 7 "up" "u" rfl rfl).1 rfl,
   ((c10_first_match_frame initLogs initLogs initLogs [] [] 7 "up" "u" rfl rfl).2.2
      stW10 "a" uA rfl).1⟩

end SocketChat
